import Mathlib

/-!
Shallow embedding of `tools/combine_code.py`, a directory-tree-to-single-file
source aggregator.  The Python module walks a project tree with `os.walk`,
prunes excluded directories, classifies files as text or binary, extracts
code/markdown cells from Jupyter notebooks, and concatenates everything into
one tagged archive file while counting processed and skipped files.

Modelling conventions:
* machine-level file content is a `List Nat` of byte values;
* Python's per-file I/O outcomes (binary read, text read with
  `errors="ignore"`, JSON parse of a notebook) are recorded as `Option`
  fields of `FileData` — `none` models the corresponding exception;
* the filesystem is a finite tree whose child lists carry the order in which
  the operating system enumerates directory entries;
* console prints become a list of `LogEvent`s and the output stream becomes
  an accumulated `String`.
-/

namespace CombineCode

/-! ### Configuration (`combine_code.py` lines 14-72) -/

def OUTPUT_FILENAME : String := "full_project_source.txt"

def EXCLUDE_DIRS_EXACT : List String :=
  [".git", "__pycache__", "cache", "output", ".vscode", ".idea", "venv",
   ".venv", "env", "build", "dist", "logs", "data", "renv"]

def EXCLUDE_DIRS_PATTERNS : List String := [".egg-info"]

def EXCLUDE_EXTS : List String :=
  [".pyc", ".pyo", ".so", ".dll", ".exe", ".png", ".jpg", ".jpeg", ".gif",
   ".ico", ".svg", ".parquet", ".arrow", ".feather", ".csv", ".zip", ".gz",
   ".tar", ".rar", ".7z", ".db", ".sqlite3", ".pdf", ".docx", ".xlsx"]

def EXCLUDE_FILES : List String :=
  [OUTPUT_FILENAME, "full_code_text.txt", ".DS_Store", "Thumbs.db", ".env",
   "notebook.html"]

/-! ### String helpers

Python's `str.strip()`, `str.lower()` and `str.endswith()` are modelled over
the character list (ASCII case folding, whitespace per `Char.isWhitespace`).
-/

/-- `str.strip()`: drop leading and trailing whitespace characters. -/
def trimStr (s : String) : String :=
  String.mk (((s.toList.dropWhile Char.isWhitespace).reverse.dropWhile
    Char.isWhitespace).reverse)

/-- `str.lower()`: lowercase every character. -/
def toLowerStr (s : String) : String :=
  String.mk (s.toList.map Char.toLower)

/-- `str.endswith(p)`. -/
def endsWithStr (s p : String) : Bool :=
  p.toList.isSuffixOf s.toList

/-! ### Path suffix (`pathlib.Path.suffix` followed by `.lower()`) -/

/-- `pathlib.Path.suffix`: the extension of the final component, i.e.
`name[i:]` where `i` is the index of the last dot, provided `0 < i <
len(name) - 1`; otherwise the empty string. -/
def pathSuffix (name : String) : String :=
  let cs := name.toList
  match cs.reverse.findIdx? (fun c => c == '.') with
  | some j =>
    let i := cs.length - 1 - j
    if 0 < i ∧ i < cs.length - 1 then String.mk (cs.drop i) else ""
  | none => ""

/-! ### Notebook model and extractor (`process_notebook`, lines 75-106) -/

/-- The JSON value found under a cell's `"source"` key: a string, a list of
string fragments, or some other JSON value whose Python `str()` form is
`coerced`. -/
inductive CellSource where
  | str (s : String)
  | fragments (parts : List String)
  | coerced (s : String)
deriving DecidableEq, Repr

/-- One notebook cell: its `"cell_type"` value (when it is a string) and its
`"source"` payload.  `cell.get("cell_type")` on a missing key is `None`,
modelled by `none`. -/
structure Cell where
  cellType : Option String
  source : CellSource
deriving DecidableEq, Repr

/-- A successfully parsed notebook document: the list under `"cells"`
(`notebook.get("cells", [])` yields `[]` when the key is missing). -/
structure Notebook where
  cells : List Cell
deriving DecidableEq, Repr

/-- Lines 89-93: coerce a cell's source to one string — a list of fragments
is joined with `"".join` (no separators), anything else goes through
`str()`. -/
def normalizeSource : CellSource → String
  | .str s => s
  | .fragments parts => String.join parts
  | .coerced s => s

/-- Lines 95-101: the block contributed by the cell at 0-based enumeration
index `i` (displayed as `i+1`): `none` for a blank-source cell or a cell of
any type other than code/markdown. -/
def cellBlock (i : Nat) (cell : Cell) : Option String :=
  let source := normalizeSource cell.source
  if trimStr source = "" then none
  else if cell.cellType = some "code" then
    some ("# --- Code Cell " ++ toString (i + 1) ++ " ---\n" ++ source ++ "\n")
  else if cell.cellType = some "markdown" then
    some ("# --- Markdown Cell " ++ toString (i + 1) ++ " ---\n" ++ source ++ "\n")
  else none

/-- The blocks emitted for a cell list, in document order. -/
def renderedBlocks (cells : List Cell) : List String :=
  cells.enum.filterMap fun p => cellBlock p.1 p.2

/-- A console print. -/
inductive LogEvent where
  | processingNotebook (rel : String)
  | processingText (rel : String)
  | skipBinary (rel : String)
  | warnNotebook (name : String)
  | infoNoContent (rel : String)
  | errorRead (rel : String)
deriving DecidableEq, Repr

/-- `process_notebook` (lines 75-106): `parsed = none` models any exception
from `open`/`json.load` or an unexpected document shape — the `except`
branch prints a warning and returns `None`.  Otherwise the emitted blocks
are joined with `"\n".join`. -/
def process_notebook (name : String) (parsed : Option Notebook) :
    Option String × List LogEvent :=
  match parsed with
  | none => (none, [.warnNotebook name])
  | some nb => (some (String.intercalate "\n" (renderedBlocks nb.cells)), [])

/-! ### Text-likeness classifier (`is_likely_text_file`, lines 109-120) -/

/-- `is_likely_text_file`: `raw = none` models `IOError`/`PermissionError`
when opening the file in binary mode; otherwise `raw = some bytes` is the
file's byte content and `f.read(1024)` is its first 1024 bytes. -/
def is_likely_text_file (name : String) (raw : Option (List Nat)) : Bool :=
  if EXCLUDE_EXTS.contains (toLowerStr (pathSuffix name)) then false
  else
    match raw with
    | some bytes => !((bytes.take 1024).contains 0)
    | none => false

/-! ### Filesystem model and `os.walk` (lines 142-151) -/

/-- The observable per-file state used by the orchestrator:
* `raw`: result of opening the file in binary mode (`none` = I/O error);
* `text`: result of `open(..., "r", errors="ignore").read()` (`none` = an
  unexpected exception, caught by the per-file `except` at line 193);
* `parsedNB`: result of parsing the file as a notebook document (`none` =
  `json.load`/shape failure). -/
structure FileData where
  raw : Option (List Nat)
  text : Option String
  parsedNB : Option Notebook
deriving DecidableEq, Repr

mutual
/-- A directory: its subdirectories and files, each list in the order the
operating system enumerates the entries. -/
inductive FSNode where
  | node (dirs : DirList) (files : List (String × FileData))
deriving DecidableEq, Repr

/-- The ordered subdirectory entries of one directory. -/
inductive DirList where
  | nil
  | cons (name : String) (child : FSNode) (rest : DirList)
deriving DecidableEq, Repr
end

/-- Lines 146-151: a directory name is dropped from `dirnames` iff it is in
the exact-match set or ends with one of the patterns. -/
def excludeDir (d : String) : Bool :=
  EXCLUDE_DIRS_EXACT.contains d
    || EXCLUDE_DIRS_PATTERNS.any (fun p => endsWithStr d p)

mutual
/-- `os.walk` restricted to what the orchestrator consumes: each visited
directory contributes its path (components relative to the root) and its
file list; pruned subdirectories are never descended into. -/
def walk (rel : List String) : FSNode → List (List String × List (String × FileData))
  | .node dirs files => (rel, files) :: walkDirs rel dirs

/-- Recursion of `os.walk` into the surviving entries of `dirnames`, in
enumeration order. -/
def walkDirs (rel : List String) : DirList → List (List String × List (String × FileData))
  | .nil => []
  | .cons d sub rest =>
    (if excludeDir d then [] else walk (rel ++ [d]) sub) ++ walkDirs rel rest
end

/-! ### Archive writer (`combine_project_files`, lines 123-207) -/

/-- Python's `str` comparison: lexicographic by code point. -/
def charListLe : List Char → List Char → Bool
  | [], _ => true
  | _ :: _, [] => false
  | a :: as, b :: bs =>
    if a.toNat < b.toNat then true
    else if b.toNat < a.toNat then false
    else charListLe as bs

/-- `a <= b` on Python strings. -/
def strLe (a b : String) : Bool := charListLe a.toList b.toList

/-- Relation by which `sorted(filenames)` orders a directory's files. -/
def fileLe (a b : String × FileData) : Prop := strLe a.1 b.1 = true

instance : DecidableRel fileLe := fun a b =>
  inferInstanceAs (Decidable (strLe a.1 b.1 = true))

/-- `sorted(filenames)` at line 153 (a comparison sort on the name). -/
def sortedFiles (files : List (String × FileData)) : List (String × FileData) :=
  List.insertionSort fileLe files

/-- `filepath.relative_to(PROJECT_ROOT).as_posix()` (line 158). -/
def relString (rel : List String) (name : String) : String :=
  String.intercalate "/" (rel ++ [name])

/-- The two header lines written at lines 137-140. -/
def headerText : String :=
  "--- Project Source Code Archive ---\n\n"
    ++ "This file contains the concatenated source code of the project, "
    ++ "with each file wrapped in tags indicating its relative path.\n\n"

/-- The candidate files of one run, in processing order: the walk's
directories in traversal order, each directory's files sorted by name. -/
def candidates (t : FSNode) : List (String × String × FileData) :=
  (walk [] t).flatMap fun e =>
    (sortedFiles e.2).map fun f => (relString e.1 f.1, f.1, f.2)

/-- What one loop iteration (lines 153-197) contributes: text appended to
the output stream, console prints, and the two counter increments. -/
structure StepResult where
  out : String
  logs : List LogEvent
  processedInc : Nat
  skippedInc : Nat
deriving DecidableEq, Repr

/-- Lines 183-185: the section written for relative path `rel` with
already-trimmed body `body`. -/
def renderSection (rel body : String) : String :=
  "<" ++ rel ++ ">\n" ++ body ++ "\n</" ++ rel ++ ">\n\n"

/-- Lines 182-191: write a section if the extracted content is truthy and
non-blank after trimming, otherwise log `[INFO]` and count a skip. -/
def writeOrSkip (rel : String) (content : Option String)
    (logs : List LogEvent) : StepResult :=
  match content with
  | some c =>
    if trimStr c = "" then ⟨"", logs ++ [.infoNoContent rel], 0, 1⟩
    else ⟨renderSection rel (trimStr c), logs, 1, 0⟩
  | none => ⟨"", logs ++ [.infoNoContent rel], 0, 1⟩

/-- One iteration of the loop at lines 153-197 for the file `name` with
relative path `rel` and on-disk state `d`.  A name in `EXCLUDE_FILES` hits
the bare `continue` at line 155.  A `.ipynb` suffix goes to the notebook
extractor; otherwise the classifier decides between a text read (whose
unexpected failure, `d.text = none`, is the `[ERROR]` branch at line 193)
and the binary/excluded skip. -/
def processFile (rel name : String) (d : FileData) : StepResult :=
  if EXCLUDE_FILES.contains name then ⟨"", [], 0, 0⟩
  else if toLowerStr (pathSuffix name) = ".ipynb" then
    let r := process_notebook name d.parsedNB
    writeOrSkip rel r.1 ([.processingNotebook rel] ++ r.2)
  else if is_likely_text_file name d.raw then
    match d.text with
    | some c => writeOrSkip rel (some c) [.processingText rel]
    | none => ⟨"", [.processingText rel, .errorRead rel], 0, 1⟩
  else ⟨"", [.skipBinary rel], 0, 1⟩

/-- The whole-run observation: output-file bytes, console prints, final
counters. -/
structure RunResult where
  out : String
  logs : List LogEvent
  processed : Nat
  skipped : Nat
deriving DecidableEq, Repr

/-- Accumulate one loop iteration's contribution. -/
def applyStep (acc : RunResult) (s : StepResult) : RunResult :=
  ⟨acc.out ++ s.out, acc.logs ++ s.logs,
   acc.processed + s.processedInc, acc.skipped + s.skippedInc⟩

/-- Process one candidate and accumulate its contribution. -/
def runStep (acc : RunResult) (c : String × String × FileData) : RunResult :=
  applyStep acc (processFile c.1 c.2.1 c.2.2)

/-- `combine_project_files` (lines 123-207) over a filesystem tree: the
header is written first, then every candidate file is processed in order. -/
def combine_project_files (t : FSNode) : RunResult :=
  (candidates t).foldl runStep ⟨headerText, [], 0, 0⟩

/-! ### Derived observations used by the statements -/

/-- The content the run extracts for file `name` with state `d`, before the
blank test at line 182 (`none`: excluded name, failed notebook parse,
binary/excluded classification, or read error). -/
def extractedContent (name : String) (d : FileData) : Option String :=
  if EXCLUDE_FILES.contains name then none
  else if toLowerStr (pathSuffix name) = ".ipynb" then (process_notebook name d.parsedNB).1
  else if is_likely_text_file name d.raw then d.text
  else none

/-- The section a candidate contributes, as (relative path, trimmed body). -/
def sectionOf (c : String × String × FileData) : Option (String × String) :=
  match extractedContent c.2.1 c.2.2 with
  | some s => if trimStr s = "" then none else some (c.1, trimStr s)
  | none => none

/-- The sections of a run, in the order they are written. -/
def runSections (t : FSNode) : List (String × String) :=
  (candidates t).filterMap sectionOf

/-- The output-stream text produced by a list of sections. -/
def concatSections : List (String × String) → String
  | [] => ""
  | s :: rest => renderSection s.1 s.2 ++ concatSections rest

/-- A candidate survives the excluded-file-name test at line 154. -/
def keepFile (c : String × String × FileData) : Bool :=
  !(EXCLUDE_FILES.contains c.2.1)

/-- `keepFile` seen from a directory's file list. -/
def keepName (f : String × FileData) : Bool :=
  !(EXCLUDE_FILES.contains f.1)

/-- Log lines that explain a skip: `- Skipping binary/excluded file`,
`[INFO] No content extracted`, `[ERROR] Could not read file`. -/
def isSkipReasonLog : LogEvent → Bool
  | .skipBinary _ => true
  | .infoNoContent _ => true
  | .errorRead _ => true
  | _ => false

/-! ### Spec-side definitions for the notebook block-count statement -/

/-- A cell whose type tag makes it emit a labeled block. -/
def isContentCell (c : Cell) : Bool :=
  c.cellType == some "code" || c.cellType == some "markdown"

/-- The labeled block the spec predicts for the cell at 0-based index `i`. -/
def specBlock (i : Nat) (c : Cell) : String :=
  if c.cellType == some "code" then
    "# --- Code Cell " ++ toString (i + 1) ++ " ---\n" ++ normalizeSource c.source ++ "\n"
  else
    "# --- Markdown Cell " ++ toString (i + 1) ++ " ---\n" ++ normalizeSource c.source ++ "\n"

/-- `renderedBlocks` with the enumeration starting at `n`. -/
def renderedBlocksFrom (n : Nat) (cells : List Cell) : List String :=
  (cells.enumFrom n).filterMap fun p => cellBlock p.1 p.2

/-! ### Tree normalizers and sample data for the order/idempotence claims -/

/-- Insert a directory entry into a name-sorted `DirList`. -/
def dirInsert (name : String) (child : FSNode) : DirList → DirList
  | .nil => .cons name child .nil
  | .cons n c rest =>
    if strLe name n then .cons name child (.cons n c rest)
    else .cons n c (dirInsert name child rest)

/-- Sort a `DirList` by directory name. -/
def sortDirList : DirList → DirList
  | .nil => .nil
  | .cons n c rest => dirInsert n c (sortDirList rest)

mutual
/-- Forget all enumeration order: sort every directory's subdirectory and
file lists by name, recursively.  Two trees with the same value under
`normalizeFS` describe the same on-disk structure enumerated in possibly
different orders. -/
def normalizeFS : FSNode → FSNode
  | .node dirs files => .node (sortDirList (normalizeDirs dirs)) (sortedFiles files)

/-- Normalize every subtree of a `DirList`. -/
def normalizeDirs : DirList → DirList
  | .nil => .nil
  | .cons d sub rest => .cons d (normalizeFS sub) (normalizeDirs rest)
end

mutual
/-- Forget only the file enumeration order: sort every directory's file
list by name, keeping subdirectory order. -/
def sortFilesOnly : FSNode → FSNode
  | .node dirs files => .node (sortFilesOnlyDirs dirs) (sortedFiles files)

/-- Apply `sortFilesOnly` under every directory entry. -/
def sortFilesOnlyDirs : DirList → DirList
  | .nil => .nil
  | .cons d sub rest => .cons d (sortFilesOnly sub) (sortFilesOnlyDirs rest)
end

/-- Add one file at the end of the root directory's enumeration. -/
def addRootFile (t : FSNode) (name : String) (d : FileData) : FSNode :=
  match t with
  | .node dirs files => .node dirs (files ++ [(name, d)])

/-- A plain readable text file: raw bytes plus decoded content. -/
def plainText (s : String) (bytes : List Nat) : FileData :=
  ⟨some bytes, some s, none⟩

/-- The end-to-end scenario's notebook: one code cell `"x=1"` and one
output-only cell with no source. -/
def scenarioNotebookData : FileData :=
  ⟨some [123, 125], some "{}",
   some ⟨[⟨some "code", .fragments ["x=1"]⟩, ⟨some "code", .fragments []⟩]⟩⟩

/-- The end-to-end scenario tree: `src/a.py`, `src/__pycache__/x.pyc`
(binary), `notebook.ipynb`. -/
def scenarioTree : FSNode :=
  .node
    (.cons "src"
      (.node
        (.cons "__pycache__"
          (.node .nil [("x.pyc", ⟨some [0, 1], none, none⟩)]) .nil)
        [("a.py", plainText "print(1)" [112, 114, 105, 110, 116, 40, 49, 41])])
      .nil)
    [("notebook.ipynb", scenarioNotebookData)]

/-- Two sibling directories enumerated in order `a`, `b`. -/
def orderTreeA : FSNode :=
  .node
    (.cons "a" (.node .nil [("f.txt", plainText "aa" [97, 97])])
      (.cons "b" (.node .nil [("g.txt", plainText "bb" [98, 98])]) .nil))
    []

/-- The same two directories enumerated in order `b`, `a`. -/
def orderTreeB : FSNode :=
  .node
    (.cons "b" (.node .nil [("g.txt", plainText "bb" [98, 98])])
      (.cons "a" (.node .nil [("f.txt", plainText "aa" [97, 97])]) .nil))
    []

/-- A root holding only a file whose name is in `EXCLUDE_FILES`. -/
def silentDropTree : FSNode :=
  .node .nil [(".DS_Store", plainText "hello" [104, 105])]

/-- A root holding a regular file named like an excluded directory. -/
def fileNamedPycacheTree : FSNode :=
  .node .nil [("__pycache__", plainText "hi" [104, 105])]

/-- A root holding a directory named like an excluded file. -/
def dirNamedDSStoreTree : FSNode :=
  .node (.cons ".DS_Store" (.node .nil [("f.py", plainText "hi" [104, 105])]) .nil) []

/-- A root holding one plain text file, for the round-trip witness. -/
def roundtripTree : FSNode :=
  .node .nil [("a.py", plainText "print(1)" [112])]

instance : IsTotal (String × FileData) fileLe :=
  ⟨fun a b => by
    unfold fileLe strLe
    generalize a.1.toList = as
    generalize b.1.toList = bs
    induction as generalizing bs with
    | nil => left; rfl
    | cons x xs ih =>
      cases bs with
      | nil => right; rfl
      | cons y ys =>
        unfold charListLe
        rcases Nat.lt_trichotomy x.toNat y.toNat with h | h | h
        · left; rw [if_pos h]
        · have h1 : ¬ x.toNat < y.toNat := by omega
          have h2 : ¬ y.toNat < x.toNat := by omega
          rcases ih ys with hh | hh
          · left; rw [if_neg h1, if_neg h2]; exact hh
          · right; rw [if_neg h2, if_neg h1]; exact hh
        · right; rw [if_pos h]⟩

instance : IsTrans (String × FileData) fileLe :=
  ⟨fun a b c hab hbc => by
    unfold fileLe strLe at *
    revert hab hbc
    generalize a.1.toList = as
    generalize b.1.toList = bs
    generalize c.1.toList = cs
    induction as generalizing bs cs with
    | nil => intro _ _; rfl
    | cons x xs ih =>
      cases bs with
      | nil => intro hab _; exact absurd hab (by simp [charListLe])
      | cons y ys =>
        cases cs with
        | nil => intro _ hbc; exact absurd hbc (by simp [charListLe])
        | cons z zs =>
          intro hab hbc
          unfold charListLe at hab hbc ⊢
          by_cases hxy : x.toNat < y.toNat
          · by_cases hyz : y.toNat < z.toNat
            · rw [if_pos (by omega : x.toNat < z.toNat)]
            · rw [if_neg hyz] at hbc
              by_cases hzy : z.toNat < y.toNat
              · rw [if_pos hzy] at hbc; cases hbc
              · rw [if_pos (by omega : x.toNat < z.toNat)]
          · rw [if_neg hxy] at hab
            by_cases hyx : y.toNat < x.toNat
            · rw [if_pos hyx] at hab; cases hab
            · rw [if_neg hyx] at hab
              by_cases hyz : y.toNat < z.toNat
              · rw [if_pos (by omega : x.toNat < z.toNat)]
              · rw [if_neg hyz] at hbc
                by_cases hzy : z.toNat < y.toNat
                · rw [if_pos hzy] at hbc; cases hbc
                · rw [if_neg hzy] at hbc
                  rw [if_neg (by omega : ¬ x.toNat < z.toNat),
                    if_neg (by omega : ¬ z.toNat < x.toNat)]
                  exact ih ys zs hab hbc⟩

/-- A root with two files enumerated out of name order. -/
def fileOrderTreeX : FSNode :=
  .node .nil [("b.py", plainText "B" [66]), ("a.py", plainText "A" [65])]

/-- The same two files enumerated in name order. -/
def fileOrderTreeY : FSNode :=
  .node .nil [("a.py", plainText "A" [65]), ("b.py", plainText "B" [66])]

/-- A concrete cell list with one code, one unknown-type and one markdown
cell, used to instantiate the block-structure statement. -/
def witnessCells : List Cell :=
  [⟨some "code", .str "x=1"⟩, ⟨some "raw", .str "zzz"⟩,
   ⟨some "markdown", .fragments ["# t"]⟩]

/-! ## Theorems -/

/-- The two possible outcomes of the write-or-skip block at lines 182-191. -/
theorem writeOrSkip_cases (rel : String) (content : Option String)
    (logs : List LogEvent) :
    (∃ body, writeOrSkip rel content logs = ⟨renderSection rel body, logs, 1, 0⟩)
    ∨ writeOrSkip rel content logs = ⟨"", logs ++ [.infoNoContent rel], 0, 1⟩ := by
  cases content with
  | none => exact Or.inr rfl
  | some c =>
    by_cases h : trimStr c = ""
    · right; simp [writeOrSkip, h]
    · left; exact ⟨trimStr c, by simp [writeOrSkip, h]⟩

/-- Branch lemma: the bare `continue` at lines 154-155. -/
theorem processFile_excluded (rel name : String) (d : FileData)
    (h : name ∈ EXCLUDE_FILES) : processFile rel name d = ⟨"", [], 0, 0⟩ := by
  simp [processFile, h]

/-- Branch lemma: the notebook dispatch at lines 163-165. -/
theorem processFile_notebook (rel name : String) (d : FileData)
    (h1 : name ∉ EXCLUDE_FILES) (h2 : toLowerStr (pathSuffix name) = ".ipynb") :
    processFile rel name d =
      writeOrSkip rel (process_notebook name d.parsedNB).1
        ([.processingNotebook rel] ++ (process_notebook name d.parsedNB).2) := by
  simp [processFile, h1, h2]

/-- Branch lemma: the text read at lines 167-172. -/
theorem processFile_textfile (rel name : String) (d : FileData) (c : String)
    (h1 : name ∉ EXCLUDE_FILES) (h2 : toLowerStr (pathSuffix name) ≠ ".ipynb")
    (h3 : is_likely_text_file name d.raw = true) (h4 : d.text = some c) :
    processFile rel name d = writeOrSkip rel (some c) [.processingText rel] := by
  simp [processFile, h1, h2, h3, h4]

/-- Branch lemma: the `[ERROR]` handler at lines 193-197. -/
theorem processFile_readError (rel name : String) (d : FileData)
    (h1 : name ∉ EXCLUDE_FILES) (h2 : toLowerStr (pathSuffix name) ≠ ".ipynb")
    (h3 : is_likely_text_file name d.raw = true) (h4 : d.text = none) :
    processFile rel name d = ⟨"", [.processingText rel, .errorRead rel], 0, 1⟩ := by
  simp [processFile, h1, h2, h3, h4]

/-- Branch lemma: the binary/excluded skip at lines 174-179. -/
theorem processFile_binary (rel name : String) (d : FileData)
    (h1 : name ∉ EXCLUDE_FILES) (h2 : toLowerStr (pathSuffix name) ≠ ".ipynb")
    (h3 : is_likely_text_file name d.raw = false) :
    processFile rel name d = ⟨"", [.skipBinary rel], 0, 1⟩ := by
  simp [processFile, h1, h2, h3]

/-- **C5** `is_likely_text_file` returns false on an excluded extension
(case-insensitively) independently of the file's bytes — so without reading
them; otherwise it reads at most the first 1024 bytes and answers true iff
no null byte occurs there, and false when the binary open fails. -/
theorem classifier_excluded_ext_and_null_sniff (name : String)
    (bytes bytes' : List Nat) :
    (toLowerStr (pathSuffix name) ∈ EXCLUDE_EXTS →
      ∀ raw : Option (List Nat), is_likely_text_file name raw = false)
    ∧ (toLowerStr (pathSuffix name) ∈ EXCLUDE_EXTS →
      is_likely_text_file name (some bytes) = is_likely_text_file name (some bytes'))
    ∧ (toLowerStr (pathSuffix name) ∉ EXCLUDE_EXTS →
      (is_likely_text_file name (some bytes) = true ↔ (0 : Nat) ∉ bytes.take 1024))
    ∧ (toLowerStr (pathSuffix name) ∉ EXCLUDE_EXTS →
      is_likely_text_file name none = false) := by
  refine ⟨?_, ?_, ?_, ?_⟩ <;> intro h
  · intro raw; simp [is_likely_text_file, h]
  · simp [is_likely_text_file, h]
  · simp [is_likely_text_file, h]
  · simp [is_likely_text_file, h]

/-- Witness for C5 at concrete inputs. -/
theorem classifier_excluded_ext_and_null_sniff_witness :
    is_likely_text_file "x.PYC" (some [104]) = false
    ∧ (is_likely_text_file "a.py" (some [104]) = true ↔ (0 : Nat) ∉ [104].take 1024)
    ∧ is_likely_text_file "a.py" none = false :=
  ⟨(classifier_excluded_ext_and_null_sniff "x.PYC" [] []).1 (by decide) (some [104]),
   (classifier_excluded_ext_and_null_sniff "a.py" [104] []).2.2.1 (by decide),
   (classifier_excluded_ext_and_null_sniff "a.py" [104] []).2.2.2 (by decide)⟩

/-- **C6** When notebook parsing fails, `process_notebook` returns no
content (never an exception) after printing a warning, and the orchestrator
logs the empty extraction and counts the file as skipped; the loop iteration
ends normally, so the run continues. -/
theorem notebook_failure_skipped (rel name : String) (d : FileData)
    (hname : name ∉ EXCLUDE_FILES)
    (hsuf : toLowerStr (pathSuffix name) = ".ipynb")
    (hnb : d.parsedNB = none) :
    processFile rel name d =
      ⟨"", [.processingNotebook rel, .warnNotebook name, .infoNoContent rel], 0, 1⟩
    ∧ (process_notebook name d.parsedNB).1 = none := by
  constructor
  · rw [processFile_notebook rel name d hname hsuf, hnb]
    simp [process_notebook, writeOrSkip]
  · simp [hnb, process_notebook]

/-- Witness for C6: a concrete unparseable notebook. -/
theorem notebook_failure_skipped_witness :
    processFile "nb.ipynb" "nb.ipynb" ⟨none, none, none⟩ =
      ⟨"", [.processingNotebook "nb.ipynb", .warnNotebook "nb.ipynb",
            .infoNoContent "nb.ipynb"], 0, 1⟩ :=
  (notebook_failure_skipped "nb.ipynb" "nb.ipynb" ⟨none, none, none⟩
    (by decide) (by decide) rfl).1

/-- **C1 (amended)** A candidate whose name is in the excluded-file-name set
is dropped silently: no log line, no counter change, no output.  Every other
candidate either writes a section and increments the processed counter, or
increments the skipped counter and prints a log line with a skip reason. -/
theorem processFile_accounting (rel name : String) (d : FileData) :
    (EXCLUDE_FILES.contains name = true ∧ processFile rel name d = ⟨"", [], 0, 0⟩)
    ∨ (EXCLUDE_FILES.contains name = false ∧
        ((∃ body, (processFile rel name d).out = renderSection rel body
            ∧ (processFile rel name d).processedInc = 1
            ∧ (processFile rel name d).skippedInc = 0)
          ∨ ((processFile rel name d).out = ""
            ∧ (processFile rel name d).processedInc = 0
            ∧ (processFile rel name d).skippedInc = 1
            ∧ ∃ e, e ∈ (processFile rel name d).logs ∧ isSkipReasonLog e = true))) := by
  by_cases hn : name ∈ EXCLUDE_FILES
  · exact Or.inl ⟨by simpa using hn, processFile_excluded rel name d hn⟩
  · refine Or.inr ⟨by simpa using hn, ?_⟩
    by_cases hs : toLowerStr (pathSuffix name) = ".ipynb"
    · rw [processFile_notebook rel name d hn hs]
      rcases writeOrSkip_cases rel (process_notebook name d.parsedNB).1
          ([.processingNotebook rel] ++ (process_notebook name d.parsedNB).2) with
        ⟨body, hw⟩ | hw
      · exact Or.inl ⟨body, by rw [hw], by rw [hw], by rw [hw]⟩
      · refine Or.inr ⟨by rw [hw], by rw [hw], by rw [hw], .infoNoContent rel, ?_, rfl⟩
        rw [hw]; exact List.mem_append_right _ (List.mem_singleton.mpr rfl)
    · by_cases ht : is_likely_text_file name d.raw = true
      · cases hd : d.text with
        | some c =>
          rw [processFile_textfile rel name d c hn hs ht hd]
          rcases writeOrSkip_cases rel (some c) [.processingText rel] with
            ⟨body, hw⟩ | hw
          · exact Or.inl ⟨body, by rw [hw], by rw [hw], by rw [hw]⟩
          · refine Or.inr ⟨by rw [hw], by rw [hw], by rw [hw], .infoNoContent rel, ?_, rfl⟩
            rw [hw]; exact List.mem_append_right _ (List.mem_singleton.mpr rfl)
        | none =>
          rw [processFile_readError rel name d hn hs ht hd]
          exact Or.inr ⟨rfl, rfl, rfl, .errorRead rel, by simp, rfl⟩
      · rw [processFile_binary rel name d hn hs (by simpa using ht)]
        exact Or.inr ⟨rfl, rfl, rfl, .skipBinary rel, by simp, rfl⟩

/-- **C1 counterexample** A yielded candidate whose name is in the
excluded-file-name set produces no log line and no counter increment: the
run over a root containing only `.DS_Store` ends with zero logs, zero
skipped, zero processed. -/
theorem excluded_name_silent_drop :
    candidates silentDropTree =
      [(".DS_Store", ".DS_Store", plainText "hello" [104, 105])]
    ∧ combine_project_files silentDropTree = ⟨headerText, [], 0, 0⟩ :=
  ⟨rfl, rfl⟩

set_option maxRecDepth 100000 in
/-- **C9** The end-to-end scenario: one section for `src/a.py` with body
`print(1)`, one for `notebook.ipynb` whose body is
`# --- Code Cell 1 ---\nx=1` followed by the newline before the closing tag,
and no section for the `.pyc` file. -/
theorem end_to_end_scenario :
    runSections scenarioTree =
      [("notebook.ipynb", "# --- Code Cell 1 ---\nx=1"), ("src/a.py", "print(1)")]
    ∧ (combine_project_files scenarioTree).out =
        headerText
          ++ "<notebook.ipynb>\n# --- Code Cell 1 ---\nx=1\n</notebook.ipynb>\n\n"
          ++ "<src/a.py>\nprint(1)\n</src/a.py>\n\n"
    ∧ (∀ s, s ∈ runSections scenarioTree → endsWithStr s.1 ".pyc" = false)
    ∧ (combine_project_files scenarioTree).processed = 2 := by
  exact ⟨by decide, by decide, by decide, by decide⟩

set_option maxRecDepth 100000 in
/-- Witness for C9's quantified conjunct at the notebook section. -/
theorem end_to_end_scenario_witness :
    endsWithStr "notebook.ipynb" ".pyc" = false :=
  end_to_end_scenario.2.2.1 ("notebook.ipynb", "# --- Code Cell 1 ---\nx=1")
    (by decide)

/-- **C10** Exclusion rules are kind-specific: no excluded file name is an
excluded directory name and vice versa; a regular file named `__pycache__`
is classified and included, and a directory named `.DS_Store` is descended
into. -/
theorem exclusion_rules_kind_specific :
    (∀ n, n ∈ EXCLUDE_FILES → excludeDir n = false)
    ∧ (∀ d, d ∈ EXCLUDE_DIRS_EXACT → EXCLUDE_FILES.contains d = false)
    ∧ runSections fileNamedPycacheTree = [("__pycache__", "hi")]
    ∧ runSections dirNamedDSStoreTree = [(".DS_Store/f.py", "hi")] :=
  ⟨by decide, by decide, by decide, by decide⟩

/-- Witness for C10's universally quantified conjuncts. -/
theorem exclusion_rules_kind_specific_witness :
    excludeDir ".DS_Store" = false ∧ EXCLUDE_FILES.contains "__pycache__" = false :=
  ⟨exclusion_rules_kind_specific.1 ".DS_Store" (by decide),
   exclusion_rules_kind_specific.2.1 "__pycache__" (by decide)⟩

mutual

/-- Every entry the walk yields below `rel` has only unexcluded directory
components past the (unexcluded) prefix `rel`. -/
theorem walk_components (rel : List String) : (t : FSNode) →
    (∀ c ∈ rel, excludeDir c = false) →
    ∀ e ∈ walk rel t, ∀ c ∈ e.1, excludeDir c = false
  | .node dirs files, hrel => by
    intro e he
    simp only [walk] at he
    rcases List.mem_cons.mp he with h | h
    · subst h; exact hrel
    · exact walkDirs_components rel dirs hrel e h

/-- Same property for the recursion into a pruned `dirnames` list. -/
theorem walkDirs_components (rel : List String) : (ds : DirList) →
    (∀ c ∈ rel, excludeDir c = false) →
    ∀ e ∈ walkDirs rel ds, ∀ c ∈ e.1, excludeDir c = false
  | .nil, hrel => by
    intro e he
    simp only [walkDirs] at he
    exact absurd he (List.not_mem_nil e)
  | .cons d sub rest, hrel => by
    intro e he
    simp only [walkDirs] at he
    rcases List.mem_append.mp he with h | h
    · by_cases hd : excludeDir d = true
      · rw [if_pos hd] at h
        exact absurd h (List.not_mem_nil e)
      · rw [if_neg hd] at h
        refine walk_components (rel ++ [d]) sub ?_ e h
        intro c hc
        rcases List.mem_append.mp hc with h1 | h1
        · exact hrel c h1
        · have hcd : c = d := List.mem_singleton.mp h1
          subst hcd
          exact Bool.eq_false_iff.mpr hd
    · exact walkDirs_components rel rest hrel e h

end

/-- **C2** Pruning is effective: every (directory-path, files) entry the
traversal yields has no excluded name — exact or by suffix pattern — among
its directory components, so no file beneath an excluded directory is ever
yielded, at any nesting depth. -/
theorem excluded_dirs_never_yielded (t : FSNode)
    (e : List String × List (String × FileData)) (he : e ∈ walk [] t)
    (c : String) (hc : c ∈ e.1) : excludeDir c = false :=
  walk_components [] t (fun c' hc' => absurd hc' (List.not_mem_nil c')) e he c hc

/-- Witness for C2 on the end-to-end scenario tree. -/
theorem excluded_dirs_never_yielded_witness : excludeDir "src" = false :=
  excluded_dirs_never_yielded scenarioTree
    (["src"], [("a.py", plainText "print(1)" [112, 114, 105, 110, 116, 40, 49, 41])])
    (by decide) "src" (by decide)

/-- A content cell (code or markdown) with non-blank source emits exactly
the spec-predicted labeled block. -/
theorem cellBlock_content (n : Nat) (c : Cell)
    (hb : trimStr (normalizeSource c.source) ≠ "")
    (hc : isContentCell c = true) :
    cellBlock n c = some (specBlock n c) := by
  have hc' : c.cellType = some "code" ∨ c.cellType = some "markdown" := by
    simpa [isContentCell] using hc
  rcases hc' with h | h
  · simp [cellBlock, specBlock, h, hb]
  · have hnc : ¬ c.cellType = some "code" := by rw [h]; simp
    simp [cellBlock, specBlock, h, hnc, hb]

/-- A cell of any other type emits no block. -/
theorem cellBlock_other (n : Nat) (c : Cell) (hc : isContentCell c = false) :
    cellBlock n c = none := by
  have h1 : ¬ c.cellType = some "code" := by
    intro h; rw [isContentCell, h] at hc; simp at hc
  have h2 : ¬ c.cellType = some "markdown" := by
    intro h; rw [isContentCell, h] at hc; simp at hc
  by_cases hb : trimStr (normalizeSource c.source) = ""
  · simp [cellBlock, hb]
  · simp [cellBlock, hb, h1, h2]

/-- The emitted blocks are exactly the content cells' spec blocks, for any
enumeration start. -/
theorem renderedBlocksFrom_eq (cells : List Cell) : ∀ n : Nat,
    (∀ c ∈ cells, isContentCell c = true → trimStr (normalizeSource c.source) ≠ "") →
    renderedBlocksFrom n cells =
      ((cells.enumFrom n).filter fun p => isContentCell p.2).map
        fun p => specBlock p.1 p.2 := by
  induction cells with
  | nil => intro n _; simp [renderedBlocksFrom]
  | cons c cs ih =>
    intro n h
    have hcs : ∀ c' ∈ cs, isContentCell c' = true →
        trimStr (normalizeSource c'.source) ≠ "" :=
      fun c' hc' => h c' (List.mem_cons_of_mem c hc')
    by_cases hc : isContentCell c = true
    · have hb := h c (List.mem_cons_self c cs) hc
      have hstep : renderedBlocksFrom n (c :: cs) =
          specBlock n c :: renderedBlocksFrom (n + 1) cs := by
        simp [renderedBlocksFrom, List.enumFrom, List.filterMap_cons,
          cellBlock_content n c hb hc]
      rw [hstep, ih (n + 1) hcs]
      simp [List.enumFrom, List.filter_cons, hc]
    · have hcf : isContentCell c = false := by simpa using hc
      have hstep : renderedBlocksFrom n (c :: cs) = renderedBlocksFrom (n + 1) cs := by
        simp [renderedBlocksFrom, List.enumFrom, List.filterMap_cons,
          cellBlock_other n c hcf]
      rw [hstep, ih (n + 1) hcs]
      simp [List.enumFrom, List.filter_cons, hcf]

/-- Block count equals content-cell count, for any enumeration start. -/
theorem length_filter_enumFrom (cells : List Cell) : ∀ n : Nat,
    ((cells.enumFrom n).filter fun p => isContentCell p.2).length =
      (cells.filter fun c => isContentCell c).length := by
  induction cells with
  | nil => intro n; simp
  | cons c cs ih =>
    intro n
    by_cases hc : isContentCell c = true <;>
      simp [List.enumFrom, List.filter_cons, hc, ih (n + 1)]

/-- **C3** For a well-formed notebook whose code and markdown cells all
have non-blank normalized source, the rendering is exactly one labeled
block per content cell — `Code Cell {i+1}` / `Markdown Cell {i+1}`, with
the index 1-based over all cells in document order — so N+M blocks in
original order and none for cells of other types; fragment sources are
joined verbatim. -/
theorem render_notebook_block_structure (name : String) (cells : List Cell)
    (h : ∀ c ∈ cells, isContentCell c = true →
      trimStr (normalizeSource c.source) ≠ "") :
    (process_notebook name (some ⟨cells⟩)).1 =
      some (String.intercalate "\n"
        ((cells.enum.filter fun p => isContentCell p.2).map
          fun p => specBlock p.1 p.2))
    ∧ (renderedBlocks cells).length = (cells.filter fun c => isContentCell c).length
    ∧ ∀ parts, normalizeSource (.fragments parts) = String.join parts := by
  have hmain : renderedBlocks cells =
      ((cells.enum.filter fun p => isContentCell p.2).map
        fun p => specBlock p.1 p.2) := by
    simpa [renderedBlocks, renderedBlocksFrom, List.enum] using
      renderedBlocksFrom_eq cells 0 h
  refine ⟨?_, ?_, fun parts => rfl⟩
  · simp only [process_notebook]
    rw [hmain]
  · rw [hmain, List.length_map]
    simpa [List.enum] using length_filter_enumFrom cells 0

/-- Witness for C3 at a concrete three-cell notebook. -/
theorem render_notebook_block_structure_witness :
    (process_notebook "nb.ipynb" (some ⟨witnessCells⟩)).1 =
      some (String.intercalate "\n"
        ((witnessCells.enum.filter fun p => isContentCell p.2).map
          fun p => specBlock p.1 p.2))
    ∧ (renderedBlocks witnessCells).length =
        (witnessCells.filter fun c => isContentCell c).length
    ∧ ∀ parts, normalizeSource (.fragments parts) = String.join parts :=
  render_notebook_block_structure "nb.ipynb" witnessCells (by decide)

/-- The output-stream contribution of one candidate is the rendering of its
section, or nothing. -/
theorem processFile_out (rel name : String) (d : FileData) :
    (processFile rel name d).out =
      (match sectionOf (rel, name, d) with
        | some p => renderSection p.1 p.2
        | none => "") := by
  by_cases hn : name ∈ EXCLUDE_FILES
  · simp [processFile_excluded rel name d hn, sectionOf, extractedContent, hn]
  · by_cases hs : toLowerStr (pathSuffix name) = ".ipynb"
    · rw [processFile_notebook rel name d hn hs]
      cases hnb : (process_notebook name d.parsedNB).1 with
      | none => simp [writeOrSkip, sectionOf, extractedContent, hn, hs, hnb]
      | some c =>
        by_cases hb : trimStr c = ""
        · simp [writeOrSkip, sectionOf, extractedContent, hn, hs, hnb, hb]
        · simp [writeOrSkip, sectionOf, extractedContent, hn, hs, hnb, hb]
    · have hsx : ¬ toLowerStr (pathSuffix name) = ".ipynb" := hs
      by_cases ht : is_likely_text_file name d.raw = true
      · cases hd : d.text with
        | some c =>
          rw [processFile_textfile rel name d c hn hs ht hd]
          by_cases hb : trimStr c = ""
          · simp [writeOrSkip, sectionOf, extractedContent, hn, hsx, ht, hd, hb]
          · simp [writeOrSkip, sectionOf, extractedContent, hn, hsx, ht, hd, hb]
        | none =>
          rw [processFile_readError rel name d hn hs ht hd]
          simp [sectionOf, extractedContent, hn, hsx, ht, hd]
      · have htf : is_likely_text_file name d.raw = false := by simpa using ht
        rw [processFile_binary rel name d hn hs htf]
        simp [sectionOf, extractedContent, hn, hsx, htf]

/-- The key of a section is the candidate's relative path. -/
theorem sectionOf_key (c : String × String × FileData) (p : String × String)
    (h : sectionOf c = some p) : p.1 = c.1 := by
  unfold sectionOf at h
  cases he : extractedContent c.2.1 c.2.2 with
  | none => simp only [he] at h; cases h
  | some s =>
    simp only [he] at h
    by_cases hb : trimStr s = ""
    · rw [if_pos hb] at h; cases h
    · rw [if_neg hb] at h
      cases h
      rfl

/-- The accumulated output of the candidate loop. -/
theorem foldl_runStep_out (L : List (String × String × FileData)) :
    ∀ acc : RunResult,
      (L.foldl runStep acc).out = acc.out ++ concatSections (L.filterMap sectionOf) := by
  induction L with
  | nil => intro acc; simp [concatSections, String.append_empty]
  | cons c cs ih =>
    intro acc
    rw [List.foldl_cons, ih]
    have hout : (runStep acc c).out = acc.out ++ (processFile c.1 c.2.1 c.2.2).out := rfl
    cases hsec : sectionOf c with
    | none =>
      have hsec' : sectionOf (c.1, c.2.1, c.2.2) = none := hsec
      rw [List.filterMap_cons_none hsec, hout, processFile_out]
      simp only [hsec']
      simp [String.append_empty]
    | some p =>
      have hsec' : sectionOf (c.1, c.2.1, c.2.2) = some p := hsec
      rw [List.filterMap_cons_some hsec, hout, processFile_out]
      simp only [hsec']
      simp [concatSections, String.append_assoc]

/-- The run's output file is the header followed by the rendered sections. -/
theorem run_out_eq_sections (t : FSNode) :
    (combine_project_files t).out = headerText ++ concatSections (runSections t) := by
  rw [combine_project_files, runSections, foldl_runStep_out]

/-- Filtering sections by path commutes with extraction, since a section
carries its candidate's path. -/
theorem filter_filterMap_sections (P : String) (L : List (String × String × FileData)) :
    (L.filterMap sectionOf).filter (fun s => s.1 == P) =
      (L.filter (fun c => c.1 == P)).filterMap sectionOf := by
  induction L with
  | nil => rfl
  | cons c cs ih =>
    cases hsec : sectionOf c with
    | none =>
      simp only [List.filterMap_cons, List.filter_cons, hsec]
      by_cases hp : (c.1 == P) = true <;> simp [hp, hsec, ih]
    | some p =>
      have hkey : p.1 = c.1 := sectionOf_key c p hsec
      simp only [List.filterMap_cons, List.filter_cons, hsec]
      by_cases hp : (c.1 == P) = true <;> simp [hp, hkey, hsec, ih]

/-- **C4** If the traversal yields exactly one candidate with relative path
`P` — a plain file whose extracted content is `C`, non-blank after trimming
— then the run writes exactly one section for `P`, whose body is `C`
trimmed; the whole output is the header plus the rendered sections, and
every rendered section wraps its body in open and close tags carrying the
identical relative path text. -/
theorem roundtrip_unique_section (t : FSNode) (P name : String) (d : FileData)
    (C : String)
    (h1 : (candidates t).filter (fun c => c.1 == P) = [(P, name, d)])
    (h2 : extractedContent name d = some C)
    (h3 : trimStr C ≠ "") :
    (runSections t).filter (fun s => s.1 == P) = [(P, trimStr C)]
    ∧ (combine_project_files t).out = headerText ++ concatSections (runSections t)
    ∧ ∀ rel body, renderSection rel body =
        "<" ++ rel ++ ">\n" ++ body ++ "\n</" ++ rel ++ ">\n\n" := by
  refine ⟨?_, run_out_eq_sections t, fun rel body => rfl⟩
  have hsec : sectionOf (P, name, d) = some (P, trimStr C) := by
    unfold sectionOf
    simp only [h2]
    rw [if_neg h3]
  rw [runSections, filter_filterMap_sections, h1, List.filterMap_cons_some hsec]
  rfl

/-- Witness for C4: a root with a single `a.py`. -/
theorem roundtrip_unique_section_witness :
    (runSections roundtripTree).filter (fun s => s.1 == "a.py") =
      [("a.py", trimStr "print(1)")] :=
  (roundtrip_unique_section roundtripTree "a.py" "a.py"
    (plainText "print(1)" [112]) "print(1)" (by decide) (by decide) (by decide)).1

/-- Sorting an already name-sorted file list changes nothing. -/
theorem sortedFiles_idem (files : List (String × FileData)) :
    sortedFiles (sortedFiles files) = sortedFiles files :=
  List.Sorted.insertionSort_eq (List.sorted_insertionSort fileLe files)

mutual

/-- Walking a tree whose file lists are pre-sorted yields the same entries
with sorted file lists. -/
theorem walk_sortFilesOnly (rel : List String) : (t : FSNode) →
    walk rel (sortFilesOnly t) = (walk rel t).map (fun e => (e.1, sortedFiles e.2))
  | .node dirs files => by
    simp only [sortFilesOnly, walk, List.map_cons]
    rw [walkDirs_sortFilesOnly rel dirs]

/-- `walk_sortFilesOnly` for the recursion into subdirectories. -/
theorem walkDirs_sortFilesOnly (rel : List String) : (ds : DirList) →
    walkDirs rel (sortFilesOnlyDirs ds) =
      (walkDirs rel ds).map (fun e => (e.1, sortedFiles e.2))
  | .nil => by simp [sortFilesOnlyDirs, walkDirs]
  | .cons d sub rest => by
    simp only [sortFilesOnlyDirs, walkDirs, List.map_append]
    rw [walkDirs_sortFilesOnly rel rest]
    by_cases hd : excludeDir d = true
    · rw [if_pos hd, if_pos hd]; rfl
    · rw [if_neg hd, if_neg hd, walk_sortFilesOnly (rel ++ [d]) sub]

end

/-- The candidate sequence only depends on the tree with file lists
normalized: `sorted(filenames)` erases the file enumeration order. -/
theorem candidates_sortFilesOnly (t : FSNode) :
    candidates (sortFilesOnly t) = candidates t := by
  rw [candidates, candidates, walk_sortFilesOnly]
  generalize walk ([] : List String) t = L
  induction L with
  | nil => rfl
  | cons e L ih =>
    simp only [List.map_cons, List.flatMap_cons, ih, sortedFiles_idem]

/-- **C7 (amended)** Within each directory, files are processed in
lexicographic name order, so the run's entire result is invariant under the
operating system's file enumeration order: any two trees that agree after
sorting each directory's file list produce identical runs.  (Sibling
*directory* enumeration order is **not** erased — see the counterexample.) -/
theorem run_invariant_under_file_order (t₁ t₂ : FSNode)
    (h : sortFilesOnly t₁ = sortFilesOnly t₂) :
    combine_project_files t₁ = combine_project_files t₂
    ∧ ∀ e ∈ walk [] t₁, (sortedFiles e.2).Sorted fileLe := by
  constructor
  · have h1 : candidates t₁ = candidates t₂ := by
      rw [← candidates_sortFilesOnly t₁, ← candidates_sortFilesOnly t₂, h]
    rw [combine_project_files, combine_project_files, h1]
  · intro e _
    exact List.sorted_insertionSort fileLe e.2

/-- Witness for the amended C7: two roots enumerating the same two files in
different orders produce identical runs. -/
theorem run_invariant_under_file_order_witness :
    combine_project_files fileOrderTreeX = combine_project_files fileOrderTreeY :=
  (run_invariant_under_file_order fileOrderTreeX fileOrderTreeY (by decide)).1

set_option maxRecDepth 100000 in
/-- **C7 counterexample** Two trees with identical structure (equal after
normalizing away all enumeration order) whose sibling directories are
enumerated in different orders produce different section sequences and
different output bytes: `os.walk`'s `dirnames` is never sorted. -/
theorem dir_enumeration_order_changes_output :
    normalizeFS orderTreeA = normalizeFS orderTreeB
    ∧ runSections orderTreeA ≠ runSections orderTreeB
    ∧ (combine_project_files orderTreeA).out ≠ (combine_project_files orderTreeB).out :=
  ⟨by decide, by decide, by decide⟩

/-- An iteration contributing nothing leaves the accumulator unchanged. -/
theorem applyStep_inert (acc : RunResult) : applyStep acc ⟨"", [], 0, 0⟩ = acc := by
  cases acc
  simp [applyStep, String.append_empty]

/-- A candidate with an excluded name contributes nothing to the run. -/
theorem runStep_excluded (acc : RunResult) (c : String × String × FileData)
    (h : keepFile c = false) : runStep acc c = acc := by
  have hmem : c.2.1 ∈ EXCLUDE_FILES := by simpa [keepFile] using h
  rw [runStep, processFile_excluded c.1 c.2.1 c.2.2 hmem, applyStep_inert]

/-- The run only depends on the candidates that survive the excluded-name
test. -/
theorem foldl_filter_keep (L : List (String × String × FileData)) :
    ∀ acc : RunResult, L.foldl runStep acc = (L.filter keepFile).foldl runStep acc := by
  induction L with
  | nil => intro _; rfl
  | cons c cs ih =>
    intro acc
    by_cases hk : keepFile c = true
    · rw [List.foldl_cons, List.filter_cons, if_pos hk, List.foldl_cons, ih]
    · have hkf : keepFile c = false := by simpa using hk
      rw [List.foldl_cons, List.filter_cons, if_neg hk, runStep_excluded acc c hkf, ih]

/-- Inserting an element below everything it precedes. -/
theorem orderedInsert_of_forall (r : α → α → Prop) [DecidableRel r]
    (a : α) (l : List α) (h : ∀ x ∈ l, r a x) :
    List.orderedInsert r a l = a :: l := by
  cases l with
  | nil => rfl
  | cons b m =>
    simp only [List.orderedInsert]
    rw [if_pos (h b (List.mem_cons_self b m))]

/-- Filtering distributes over `orderedInsert` into a sorted list. -/
theorem filter_orderedInsert (r : α → α → Prop) [DecidableRel r] [IsTrans α r]
    (p : α → Bool) (a : α) :
    ∀ l : List α, l.Sorted r →
      (List.orderedInsert r a l).filter p =
        if p a = true then List.orderedInsert r a (l.filter p) else l.filter p := by
  intro l
  induction l with
  | nil =>
    intro _
    by_cases hp : p a = true <;> simp [List.orderedInsert, List.filter_cons, hp]
  | cons b m ih =>
    intro hs
    obtain ⟨hb, hsm⟩ := List.sorted_cons.mp hs
    by_cases hab : r a b
    · have hins : List.orderedInsert r a (b :: m) = a :: b :: m := by
        simp only [List.orderedInsert]; rw [if_pos hab]
      rw [hins]
      by_cases hp : p a = true
      · rw [if_pos hp, List.filter_cons, if_pos hp]
        have hall : ∀ x ∈ (b :: m).filter p, r a x := by
          intro x hx
          rcases List.mem_cons.mp (List.mem_of_mem_filter hx) with hxb | hxm
          · subst hxb; exact hab
          · exact IsTrans.trans _ _ _ hab (hb x hxm)
        rw [orderedInsert_of_forall r a _ hall]
      · rw [if_neg hp, List.filter_cons, if_neg hp]
    · have hins : List.orderedInsert r a (b :: m) = b :: List.orderedInsert r a m := by
        simp only [List.orderedInsert]; rw [if_neg hab]
      rw [hins]
      by_cases hp : p a = true
      · rw [if_pos hp]
        by_cases hpb : p b = true
        · rw [List.filter_cons, if_pos hpb, List.filter_cons, if_pos hpb,
            ih hsm, if_pos hp]
          have hins2 : List.orderedInsert r a (b :: m.filter p) =
              b :: List.orderedInsert r a (m.filter p) := by
            simp only [List.orderedInsert]; rw [if_neg hab]
          rw [hins2]
        · rw [List.filter_cons, if_neg hpb, List.filter_cons, if_neg hpb,
            ih hsm, if_pos hp]
      · rw [if_neg hp]
        by_cases hpb : p b = true
        · rw [List.filter_cons, if_pos hpb, List.filter_cons, if_pos hpb,
            ih hsm, if_neg hp]
        · rw [List.filter_cons, if_neg hpb, List.filter_cons, if_neg hpb,
            ih hsm, if_neg hp]

/-- Filtering commutes with insertion sort. -/
theorem filter_insertionSort (r : α → α → Prop) [DecidableRel r]
    [IsTotal α r] [IsTrans α r] (p : α → Bool) :
    ∀ l : List α, (List.insertionSort r l).filter p = List.insertionSort r (l.filter p) := by
  intro l
  induction l with
  | nil => rfl
  | cons a l ih =>
    simp only [List.insertionSort, List.filter_cons]
    rw [filter_orderedInsert r p a _ (List.sorted_insertionSort r l), ih]
    by_cases hp : p a = true
    · rw [if_pos hp, if_pos hp]
      simp only [List.insertionSort]
    · rw [if_neg hp, if_neg hp]

/-- **C8** The output file's own name is always in the excluded-file-name
set, so a tree carrying the previous run's output file at the root — with
any content — produces exactly the same run as the tree without it: a
second run over an unchanged project is byte-identical. -/
theorem output_self_exclusion_idempotence (t : FSNode) (d d' : FileData) :
    combine_project_files (addRootFile t OUTPUT_FILENAME d) = combine_project_files t
    ∧ (combine_project_files (addRootFile t OUTPUT_FILENAME d)).out
        = (combine_project_files (addRootFile t OUTPUT_FILENAME d')).out
    ∧ OUTPUT_FILENAME ∈ EXCLUDE_FILES := by
  have main : ∀ dd : FileData,
      combine_project_files (addRootFile t OUTPUT_FILENAME dd) = combine_project_files t := by
    intro dd
    cases t with
    | node dirs files =>
      have hcand : (candidates (addRootFile (.node dirs files) OUTPUT_FILENAME dd)).filter keepFile
          = (candidates (.node dirs files)).filter keepFile := by
        rw [candidates, candidates]
        simp only [addRootFile, walk, List.flatMap_cons, List.filter_append]
        have hone : ∀ fs : List (String × FileData),
            ((sortedFiles fs).map
              (fun f => (relString [] f.1, f.1, f.2))).filter keepFile =
            ((sortedFiles fs).filter keepName).map
              (fun f => (relString [] f.1, f.1, f.2)) := by
          intro fs
          rw [List.filter_map]
          rfl
        rw [hone, hone]
        have hfilter : (sortedFiles (files ++ [(OUTPUT_FILENAME, dd)])).filter keepName
            = (sortedFiles files).filter keepName := by
          rw [sortedFiles, sortedFiles, filter_insertionSort fileLe keepName,
            filter_insertionSort fileLe keepName, List.filter_append]
          have : (List.filter keepName [(OUTPUT_FILENAME, dd)]) = [] := by
            simp [keepName, List.filter_cons, EXCLUDE_FILES, OUTPUT_FILENAME]
          rw [this, List.append_nil]
        rw [hfilter]
      rw [combine_project_files, combine_project_files,
        foldl_filter_keep (candidates (addRootFile (FSNode.node dirs files) OUTPUT_FILENAME dd)),
        hcand, ← foldl_filter_keep (candidates (FSNode.node dirs files))]
  exact ⟨main d, by rw [main d, main d'], by decide⟩

end CombineCode
